import Mathlib

/-!
Shallow embedding of `.github/scripts/slack-user-lookup.js` (module
`slack-user-lookup`): GitHub-actor → Slack-user resolution, mention
rewriting, HTML image-tag extraction and Slack block building.

External effects (Slack Web API calls, the GitHub REST client) are
modelled by an explicit environment `Env` whose fields are the four
network calls the script performs; each call either throws
(`Except.error`) or returns a decoded JSON payload.  JavaScript string
truthiness (`undefined`/`''` are falsy) is modelled on `Option String`,
and the concrete regexes of the script are implemented character by
character on `List Char` with JavaScript semantics (ASCII case folding,
`\w = [A-Za-z0-9_]`, `\b` word boundaries).
-/

namespace SlackLookup

/-- JavaScript `\w` word character: `[A-Za-z0-9_]` (used by `\b`). -/
def isWordChar (c : Char) : Bool :=
  c.isAlphanum || c = '_'

/-- Character class of the mention regex `@([a-zA-Z0-9-]+)`. -/
def isMentionChar (c : Char) : Bool :=
  c.isAlphanum || c = '-'

/-- ASCII part of JavaScript `\s` (whitespace), as used by `\s+` in the
img-tag regex and by `String.prototype.trim`. -/
def isJsWs (c : Char) : Bool :=
  c = ' ' || c = '\t' || c = '\n' || c = '\r' || c = '\x0b' || c = '\x0c'

/-- Quote class `["']` of the src/alt attribute regexes. -/
def isQuote (c : Char) : Bool :=
  c = '"' || c = '\x27'

/-- Does `l` start with the list `p`? -/
def startsWithL (p l : List Char) : Bool :=
  match p, l with
  | [], _ => true
  | _ :: _, [] => false
  | p :: ps, c :: cs => p = c && startsWithL ps cs

/-- Does `hay` contain `needle` as a contiguous sublist?  Implements
JavaScript `String.prototype.includes`. -/
def containsSub (hay needle : List Char) : Bool :=
  match hay with
  | [] => needle.isEmpty
  | _ :: rest => startsWithL needle hay || containsSub rest needle

/-- ASCII lowercase of a character list, modelling `toLowerCase()` on the
ASCII inputs this script deals with. -/
def lowerL (l : List Char) : List Char :=
  l.map Char.toLower

/-- JavaScript string truthiness for an optional string field:
`undefined`, `null` and `''` are falsy. -/
def jsTruthyS (o : Option String) : Bool :=
  match o with
  | none => false
  | some s => s ≠ ""

/-- JavaScript `a || b` on optional string values. -/
def jsOrS (a b : Option String) : Option String :=
  if jsTruthyS a then a else b

/-- JavaScript coercion of a possibly-undefined string into the string
slot of a result object (absent behaves as the empty string). -/
def strOfOpt (o : Option String) : String :=
  o.getD ""

/-! ## Data model (the JSON shapes the script consumes) -/

/-- Slack `user.profile` object (typedef `SlackUser.profile`). -/
structure SlackProfile where
  display_name : Option String
  image_original : Option String
  image_512 : Option String
  image_192 : Option String
  image_72 : Option String
deriving Repr, DecidableEq

/-- Slack user object (typedef `SlackUser`, plus the `deleted` and
`is_bot` flags that `users.list` members carry). -/
structure SlackUser where
  id : String
  name : Option String
  real_name : Option String
  deleted : Bool
  is_bot : Bool
  profile : Option SlackProfile
deriving Repr, DecidableEq

/-- Payload of `users.info` / `users.lookupByEmail`. -/
structure SlackResp where
  ok : Bool
  user : Option SlackUser
deriving Repr, DecidableEq

/-- Payload of `users.list`. -/
structure ListResp where
  ok : Bool
  members : Option (List SlackUser)
deriving Repr, DecidableEq

/-- The `data` of `github.rest.users.getByUsername`. -/
structure GHUser where
  login : String
  email : Option String
  name : Option String
deriving Repr, DecidableEq

/-- The external calls `findSlackUser` performs.  `Except.error` models a
thrown network / JSON-decoding error of that call. -/
structure Env where
  usersInfo : String → Except Unit SlackResp
  getByUsername : String → Except Unit GHUser
  lookupByEmail : String → Except Unit SlackResp
  usersList : Except Unit ListResp

/-- The `userMapping` parameter: `none` when the variable is unset/empty
(`if (userMapping)` falsy); otherwise the outcome of `JSON.parse`, an
association list from GitHub username to Slack user id. -/
abbrev Mapping := Option (Except Unit (List (String × String)))

/-- Association-list lookup, modelling `mapping[githubUsername]`. -/
def lookupA (m : List (String × String)) (k : String) : Option String :=
  (m.find? (fun p => p.1 = k)).map (·.2)

/-! ## findSlackUser (lines 100–180) -/

/-- Manual-mapping tier (step 1, lines 104–124).  The whole step sits in
an inner try/catch, so a parse error or a thrown `users.info` call falls
through (`none`); the tier returns a user only when the mapped id is
truthy and `users.info` answers `ok` with a user. -/
def tier1 (env : Env) (githubUsername : String) (userMapping : Mapping) : Option SlackUser :=
  match userMapping with
  | none => none
  | some (Except.error _) => none
  | some (Except.ok m) =>
    match lookupA m githubUsername with
    | none => none
    | some slackUserId =>
      if slackUserId = "" then none
      else
        match env.usersInfo slackUserId with
        | Except.error _ => none
        | Except.ok userData =>
          if userData.ok && userData.user.isSome then userData.user else none

/-- Email tier (step 3, lines 131–151): guarded by `if (githubUser.email)`;
the fetch sits in a try/catch, so a thrown call falls through. -/
def emailTier (env : Env) (githubUser : GHUser) : Option SlackUser :=
  match githubUser.email with
  | none => none
  | some em =>
    if em = "" then none
    else
      match env.lookupByEmail em with
      | Except.error _ => none
      | Except.ok emailData =>
        if emailData.ok && emailData.user.isSome then emailData.user else none

/-- The expression `githubUser.name || githubUser.login` (line 160). -/
def githubNameOf (githubUser : GHUser) : String :=
  match githubUser.name with
  | none => githubUser.login
  | some n => if n = "" then githubUser.login else n

/-- Optional-chaining `o?.toLowerCase().includes(needle.toLowerCase())`:
false when the field is absent. -/
def optIncludesCI (o : Option String) (needle : String) : Bool :=
  match o with
  | none => false
  | some s => containsSub (lowerL s.toList) (lowerL needle.toList)

/-- Optional-chaining `o?.toLowerCase() === other.toLowerCase()`:
false when the field is absent (`undefined === string` is false). -/
def optEqCI (o : Option String) (other : String) : Bool :=
  match o with
  | none => false
  | some s => lowerL s.toList = lowerL other.toList

/-- The member predicate of the name-search tier (lines 161–166):
not deleted, not a bot, and real name or profile display name contains
the GitHub display name case-insensitively, or the Slack handle equals
the GitHub username case-insensitively. -/
def tier3Pred (githubName githubUsername : String) (member : SlackUser) : Bool :=
  !member.deleted && !member.is_bot &&
    (optIncludesCI member.real_name githubName ||
     optIncludesCI (member.profile.bind (·.display_name)) githubName ||
     optEqCI member.name githubUsername)

/-- Name-search tier (step 4, lines 153–172).  The `users.list` fetch is
not inside an inner try/catch, so a thrown call propagates (to the outer
catch).  On an `ok` payload the first matching member is chosen
(`Array.prototype.find`); no match falls through to `return null`. -/
def nameTier (env : Env) (githubUser : GHUser) (githubUsername : String) :
    Except Unit (Option SlackUser) :=
  match env.usersList with
  | Except.error e => Except.error e
  | Except.ok listData =>
    if listData.ok && listData.members.isSome then
      Except.ok ((listData.members.getD []).find?
        (tier3Pred (githubNameOf githubUser) githubUsername))
    else
      Except.ok none

/-- Body of `findSlackUser` inside the outer `try` (lines 101–175):
tier 1, then the `getByUsername` fetch (not guarded by an inner catch),
then the email tier, then the name tier. -/
def findSlackUserBody (env : Env) (githubUsername : String) (userMapping : Mapping) :
    Except Unit (Option SlackUser) :=
  match tier1 env githubUsername userMapping with
  | some u => Except.ok (some u)
  | none =>
    match env.getByUsername githubUsername with
    | Except.error e => Except.error e
    | Except.ok githubUser =>
      match emailTier env githubUser with
      | some u => Except.ok (some u)
      | none => nameTier env githubUser githubUsername

/-- Function `findSlackUser` (lines 100–180): the outer catch (lines 176–179)
turns any propagated error into `null`. -/
def findSlackUser (env : Env) (githubUsername : String) (userMapping : Mapping) :
    Option SlackUser :=
  match findSlackUserBody env githubUsername userMapping with
  | Except.ok r => r
  | Except.error _ => none

/-! ## getSlackUserProfile (lines 195–211) -/

/-- Result shape of `getSlackUserProfile` (typedef `SlackUserProfile`). -/
structure SlackUserProfile where
  username : String
  icon_url : String
  matched : Bool
deriving Repr, DecidableEq

/-- Function `getSlackUserProfile` (lines 195–211): `||`-chains over the profile
fields with JavaScript falsiness. -/
def getSlackUserProfile (slackUser : Option SlackUser) : SlackUserProfile :=
  match slackUser with
  | none => { username := "", icon_url := "", matched := false }
  | some u =>
    let displayName :=
      jsOrS (jsOrS (u.profile.bind (·.display_name)) u.real_name) u.name
    let avatar :=
      jsOrS (jsOrS (jsOrS (u.profile.bind (·.image_original))
        (u.profile.bind (·.image_512))) (u.profile.bind (·.image_192)))
        (u.profile.bind (·.image_72))
    { username := strOfOpt displayName, icon_url := strOfOpt avatar, matched := true }

/-! ## processMentions (lines 231–260) -/

/-- Fueled scan for all matches of the global regex `@([a-zA-Z0-9-]+)`
in left-to-right order (the capture groups of `text.matchAll`, line
233): at an `@` the greedy `+` takes the longest run of mention
characters; an `@` followed by none is not a match and scanning resumes
at the next character; after a match, scanning resumes right after it.
Each step consumes at least one character, so fuel `text.length` (as
supplied by `findMentions`) never runs out. -/
def findMentionsGo (fuel : Nat) (text : List Char) : List (List Char) :=
  match fuel with
  | 0 => []
  | fuel + 1 =>
    match text with
    | [] => []
    | c :: rest =>
      if c = '@' then
        match rest.takeWhile isMentionChar with
        | [] => findMentionsGo fuel rest
        | nm :: ms => (nm :: ms) :: findMentionsGo fuel (rest.drop (nm :: ms).length)
      else
        findMentionsGo fuel rest

/-- All mention matches of `text.matchAll(mentionPattern)` (line 233). -/
def findMentions (text : List Char) : List (List Char) :=
  findMentionsGo text.length text

/-- The JavaScript `\b` assertion at the position right after a match of
`@name`: the last character of `name` and the following character (end
of input counts as non-word) differ in wordness. -/
def boundaryAfter (lastC : Char) (rest : List Char) : Bool :=
  match rest with
  | [] => isWordChar lastC
  | c :: _ => isWordChar lastC != isWordChar c

/-- Fueled scan of one global `replace` with the regex `` `@${name}\b` ``
(line 251), replacing each non-overlapping left-to-right occurrence with
`<@id>`; scanning resumes after each replacement.  Each step consumes at
least one character, so fuel `text.length` (as supplied by
`replaceMention`) never runs out. -/
def replaceMentionGo (nm id : List Char) (fuel : Nat) (text : List Char) : List Char :=
  match fuel with
  | 0 => text
  | fuel + 1 =>
    match text with
    | [] => []
    | c :: rest =>
      if startsWithL ('@' :: nm) (c :: rest) &&
          boundaryAfter (nm.getLastD '@') ((c :: rest).drop (nm.length + 1)) then
        '<' :: '@' :: id ++ '>' :: replaceMentionGo nm id fuel ((c :: rest).drop (nm.length + 1))
      else
        c :: replaceMentionGo nm id fuel rest

/-- The call `processedText.replace(new RegExp(..., 'g'), ...)` (lines 250–253). -/
def replaceMention (nm id text : List Char) : List Char :=
  replaceMentionGo nm id text.length text

/-- Function `processMentions` (lines 231–260): for each matched mention in order,
resolve it with `findSlackUser`; on success rewrite the running text
with `replaceMention`, otherwise leave it as is. -/
def processMentions (env : Env) (userMapping : Mapping) (text : String) : String :=
  String.mk ((findMentions text.toList).foldl
    (fun acc m =>
      match findSlackUser env (String.mk m) userMapping with
      | some slackUser => replaceMention m slackUser.id.toList acc
      | none => acc)
    text.toList)

/-! ## extractAndConvertImages (lines 332–364) -/

/-- Attempt of the regex `<img\s+[^>]*\/?>` (case-insensitive) at the
start of `text`: literal `<` then `img` (ASCII case folded), at least
one whitespace, then everything up to and including the next `>`
(`[^>]*` stops before `>`, and the optional `/` is subsumed by it).
Returns the matched tag and the remaining input. -/
def matchImgAt (text : List Char) : Option (List Char × List Char) :=
  match text with
  | '<' :: c1 :: c2 :: c3 :: rest =>
    if c1.toLower = 'i' && c2.toLower = 'm' && c3.toLower = 'g' then
      match rest.takeWhile isJsWs with
      | [] => none
      | w :: ws =>
        match (rest.drop (w :: ws).length).drop
            ((rest.drop (w :: ws).length).takeWhile (fun c => c ≠ '>')).length with
        | '>' :: after =>
          some ('<' :: c1 :: c2 :: c3 ::
            ((w :: ws) ++ (rest.drop (w :: ws).length).takeWhile (fun c => c ≠ '>')
              ++ ['>']), after)
        | _ => none
    else none
  | _ => none

/-- A successful img-tag match consumes at least one character. -/
theorem matchImgAt_rest_lt (text : List Char) (p : List Char × List Char)
    (h : matchImgAt text = some p) : p.2.length < text.length := by
  unfold matchImgAt at h
  split at h <;> try exact Option.noConfusion h
  rename_i c1 c2 c3 rest
  split at h <;> try exact Option.noConfusion h
  split at h <;> try exact Option.noConfusion h
  rename_i w ws hw
  split at h <;> try exact Option.noConfusion h
  rename_i after hdrop
  simp only [Option.some.injEq] at h
  subst h
  have hlen := congrArg List.length hdrop
  simp only [List.length_drop, List.length_cons] at hlen ⊢
  omega

/-- All matches of the global img-tag regex in `text`, left to right
(`text.match(imgTagPattern) || []`, line 337): on a failed attempt the
scan advances one character; on a match it resumes after the tag. -/
def findImgTagsGo (fuel : Nat) (text : List Char) : List (List Char) :=
  match fuel with
  | 0 => []
  | fuel + 1 =>
    match matchImgAt text with
    | some p => p.1 :: findImgTagsGo fuel p.2
    | none =>
      match text with
      | [] => []
      | _ :: rest => findImgTagsGo fuel rest

/-- All matches of `text.match(imgTagPattern)` (line 337).  By
`matchImgAt_rest_lt` each step consumes at least one character, so fuel
`text.length` never runs out. -/
def findImgTags (text : List Char) : List (List Char) :=
  findImgTagsGo text.length text

/-- Fueled scan of `text.replace(imgTagPattern, '')` (line 356): same
scan as `findImgTagsGo`, dropping each matched tag and keeping
everything else. -/
def removeImgTagsGo (fuel : Nat) (text : List Char) : List Char :=
  match fuel with
  | 0 => text
  | fuel + 1 =>
    match matchImgAt text with
    | some p => removeImgTagsGo fuel p.2
    | none =>
      match text with
      | [] => []
      | c :: rest => c :: removeImgTagsGo fuel rest

/-- The call `text.replace(imgTagPattern, '')` (line 356). -/
def removeImgTags (text : List Char) : List Char :=
  removeImgTagsGo text.length text

/-- Fueled scan of `text.replace(/\n{3,}/g, '\n\n')` (line 357): each
maximal run of three or more newlines becomes exactly two; shorter runs
are kept.  Each step consumes at least one character, so fuel
`text.length` never runs out. -/
def collapseNlGo (fuel : Nat) (text : List Char) : List Char :=
  match fuel with
  | 0 => text
  | fuel + 1 =>
    match text with
    | [] => []
    | c :: rest =>
      if c = '\n' then
        if (rest.takeWhile (fun d => d = '\n')).length + 1 ≥ 3 then
          '\n' :: '\n' :: collapseNlGo fuel (rest.drop (rest.takeWhile (fun d => d = '\n')).length)
        else
          '\n' :: rest.takeWhile (fun d => d = '\n')
            ++ collapseNlGo fuel (rest.drop (rest.takeWhile (fun d => d = '\n')).length)
      else
        c :: collapseNlGo fuel rest

/-- The call `text.replace(/\n{3,}/g, '\n\n')` (line 357). -/
def collapseNl (text : List Char) : List Char :=
  collapseNlGo text.length text

/-- Drop the maximal run of trailing whitespace. -/
def dropTrailingWs (l : List Char) : List Char :=
  match l with
  | [] => []
  | c :: rest =>
    match dropTrailingWs rest with
    | [] => if isJsWs c then [] else [c]
    | d :: ds => c :: d :: ds

/-- JavaScript `String.prototype.trim` on a character list: drop leading
and trailing whitespace. -/
def jsTrimL (text : List Char) : List Char :=
  dropTrailingWs (text.dropWhile isJsWs)

/-- Attempt of the regex `` `${attr}=["']([^"']+)["']` `` (flag `i`) at
the start of `text`: the attribute name ASCII case folded, `=`, an
opening quote (either kind), at least one non-quote character, then a
closing quote (either kind, independently of the opener).  Returns the
captured value. -/
def matchAttrAt (attr text : List Char) : Option (List Char) :=
  if startsWithL (lowerL attr) (lowerL text) then
    match (text.drop attr.length) with
    | '=' :: q :: rest2 =>
      if isQuote q then
        match rest2.takeWhile (fun c => !isQuote c) with
        | [] => none
        | v :: vs =>
          match rest2.drop (v :: vs).length with
          | c :: _ => if isQuote c then some (v :: vs) else none
          | [] => none
      else none
    | _ => none
  else none

/-- First match of the attribute regex anywhere in `text`
(`imgTag.match(...)`, non-global: leftmost match, line 341/343). -/
def findAttrVal (attr text : List Char) : Option (List Char) :=
  match text with
  | [] => none
  | _ :: rest =>
    match matchAttrAt attr text with
    | some v => some v
    | none => findAttrVal attr rest

/-- A Slack image block `{type: 'image', image_url, alt_text}`. -/
structure ImageBlock where
  image_url : String
  alt_text : String
deriving Repr, DecidableEq

/-- Result shape of `extractAndConvertImages`. -/
structure ImageExtractionResult where
  textWithoutImages : String
  imageBlocks : List ImageBlock
deriving Repr, DecidableEq

/-- Function `extractAndConvertImages` (lines 332–364): loop over the matched img
tags pushing one block per tag that has a src (alt defaults to
`"Image"`), then strip the tags, collapse newline runs and trim. -/
def extractAndConvertImages (text : String) : ImageExtractionResult :=
  { textWithoutImages := String.mk (jsTrimL (collapseNl (removeImgTags text.toList)))
    imageBlocks :=
      (findImgTags text.toList).foldl
        (fun acc imgTag =>
          match findAttrVal "src".toList imgTag with
          | some src =>
            acc ++ [{ image_url := String.mk src
                      alt_text :=
                        match findAttrVal "alt".toList imgTag with
                        | some alt => String.mk alt
                        | none => "Image" }]
          | none => acc)
        [] }

/-! ## Block builders (lines 377–504) -/

/-- A Slack message block as built by this script: a mrkdwn section, an
image block, or a context block with a single mrkdwn element. -/
inductive SBlock where
  | sec (text : String)
  | img (image_url alt_text : String)
  | ctx (text : String)
deriving Repr, DecidableEq

/-- Lift the extracted image blocks into message blocks (`blocks.push(...imageBlocks)`). -/
def imgToBlock (b : ImageBlock) : SBlock :=
  SBlock.img b.image_url b.alt_text

/-- Function `buildCommentBlocks` (lines 377–409): optional section with the
stripped text, then the image blocks, then the context block. -/
def buildCommentBlocks (commentBody issueUrl issueTitle commentUrl commentAuthor : String) :
    List SBlock :=
  (if (extractAndConvertImages commentBody).textWithoutImages ≠ "" then
    [SBlock.sec (extractAndConvertImages commentBody).textWithoutImages]
  else [])
  ++ (extractAndConvertImages commentBody).imageBlocks.map imgToBlock
  ++ [SBlock.ctx ("<" ++ issueUrl ++ "|" ++ issueTitle ++ "> • <" ++ commentUrl
      ++ "|View comment> • " ++ commentAuthor)]

/-- Function `buildReviewRequestBlocks` (lines 424–455): always one section (lead-in
sentence and title link, plus the stripped body when non-empty), then the
image blocks, then the context block. -/
def buildReviewRequestBlocks (reviewerTag prUrl prTitle prBody prNumber
    requestSender requestedReviewer : String) : List SBlock :=
  [SBlock.sec ("New PR review requested to " ++ reviewerTag ++ "\n*<" ++ prUrl ++ "|"
    ++ prTitle ++ ">*"
    ++ (if (extractAndConvertImages (String.mk (jsTrimL prBody.toList))).textWithoutImages ≠ ""
        then "\n" ++ (extractAndConvertImages (String.mk (jsTrimL prBody.toList))).textWithoutImages
        else ""))]
  ++ (extractAndConvertImages (String.mk (jsTrimL prBody.toList))).imageBlocks.map imgToBlock
  ++ [SBlock.ctx ("<" ++ prUrl ++ "|#" ++ prNumber ++ "> • " ++ requestSender
      ++ " requested review from " ++ requestedReviewer)]

/-- Function `buildReviewBlocks` (lines 470–504): always one section (emoji and
action, plus the stripped body when non-empty), then the image blocks,
then the context block. -/
def buildReviewBlocks (reviewEmoji reviewAction reviewBody prUrl prTitle reviewUrl
    reviewer : String) : List SBlock :=
  [SBlock.sec (if (extractAndConvertImages reviewBody).textWithoutImages ≠ ""
    then reviewEmoji ++ " *" ++ reviewAction ++ "*\n"
      ++ (extractAndConvertImages reviewBody).textWithoutImages
    else reviewEmoji ++ " *" ++ reviewAction ++ "*")]
  ++ (extractAndConvertImages reviewBody).imageBlocks.map imgToBlock
  ++ [SBlock.ctx ("<" ++ prUrl ++ "|" ++ prTitle ++ "> • <" ++ reviewUrl
      ++ "|View review> • " ++ reviewer)]

/-- Is this block a text section? -/
def isSec (b : SBlock) : Bool :=
  match b with
  | SBlock.sec _ => true
  | _ => false

/-- Is this block a context block? -/
def isCtx (b : SBlock) : Bool :=
  match b with
  | SBlock.ctx _ => true
  | _ => false

/-- Is this block an image block? -/
def isImg (b : SBlock) : Bool :=
  match b with
  | SBlock.img _ _ => true
  | _ => false

/-! ## Concrete fixtures used by witnesses and counterexamples -/

/-- A fully populated Slack user fixture. -/
def uOcto : SlackUser :=
  { id := "U12345678", name := some "octo", real_name := some "Octo Cat"
    deleted := false, is_bot := false
    profile := some { display_name := some "Octo", image_original := some "http://a/o.png"
                      image_512 := none, image_192 := none, image_72 := none } }

/-- An environment whose every external call throws. -/
def envAllFail : Env :=
  { usersInfo := fun _ => Except.error ()
    getByUsername := fun _ => Except.error ()
    lookupByEmail := fun _ => Except.error ()
    usersList := Except.error () }

/-! ## Claims -/

/-- C1: a GitHub username that is a key of the static mapping, whose
mapped Slack id resolves to a user via `users.info`, makes
`findSlackUser` return that user — for every environment, i.e. whatever
the email-lookup and name-search tiers would do, so neither is
consulted. -/
theorem C1_static_mapping_priority (env : Env) (githubUsername : String)
    (mp : List (String × String)) (sid : String) (u : SlackUser)
    (hmap : lookupA mp githubUsername = some sid) (hid : sid ≠ "")
    (hinfo : env.usersInfo sid = Except.ok { ok := true, user := some u }) :
    findSlackUser env githubUsername (some (Except.ok mp)) = some u := by
  unfold findSlackUser findSlackUserBody tier1
  simp [hmap, hid, hinfo]

/-- C1 witness: the mapping `octocat ↦ U12345678` resolves in an
environment whose other calls all throw. -/
theorem C1_static_mapping_priority_witness :
    lookupA [("octocat", "U12345678")] "octocat" = some "U12345678" ∧
    "U12345678" ≠ "" ∧
    (Env.mk (fun s => if s = "U12345678" then Except.ok { ok := true, user := some uOcto }
        else Except.error ())
      (fun _ => Except.error ()) (fun _ => Except.error ())
      (Except.error ())).usersInfo "U12345678"
        = Except.ok { ok := true, user := some uOcto } ∧
    findSlackUser
      (Env.mk (fun s => if s = "U12345678" then Except.ok { ok := true, user := some uOcto }
        else Except.error ())
      (fun _ => Except.error ()) (fun _ => Except.error ())
      (Except.error ()))
      "octocat" (some (Except.ok [("octocat", "U12345678")])) = some uOcto :=
  ⟨by decide, by decide, by rfl,
    C1_static_mapping_priority _ "octocat" _ "U12345678" uOcto
      (by decide) (by decide) (by rfl)⟩

/-- If every `users.info` call throws, the manual-mapping tier yields
nothing (the inner catch falls through). -/
theorem tier1_none_of_usersInfo_fail (env : Env) (githubUsername : String) (m : Mapping)
    (h : ∀ s, env.usersInfo s = Except.error ()) :
    tier1 env githubUsername m = none := by
  rcases m with _ | (e | mp)
  · simp [tier1]
  · simp [tier1]
  simp only [tier1]
  cases hl : lookupA mp githubUsername with
  | none => simp
  | some sid =>
    by_cases hs : sid = ""
    · simp [hs]
    · simp [hs, h sid]

/-- C3: `findSlackUser` never raises to its caller: its result is always
`some` identity or `none`; when every external call throws the result is
`none`; and when no tier produces a match the result is `none`. -/
theorem C3_no_raised_fault :
    (∀ (env : Env) (githubUsername : String) (m : Mapping),
      findSlackUser env githubUsername m = none ∨
      ∃ su, findSlackUser env githubUsername m = some su) ∧
    (∀ (env : Env) (githubUsername : String) (m : Mapping),
      (∀ s, env.usersInfo s = Except.error ()) →
      (∀ s, env.getByUsername s = Except.error ()) →
      (∀ s, env.lookupByEmail s = Except.error ()) →
      env.usersList = Except.error () →
      findSlackUser env githubUsername m = none) ∧
    (∀ (env : Env) (githubUsername : String) (m : Mapping) (githubUser : GHUser),
      tier1 env githubUsername m = none →
      env.getByUsername githubUsername = Except.ok githubUser →
      emailTier env githubUser = none →
      nameTier env githubUser githubUsername = Except.ok none →
      findSlackUser env githubUsername m = none) := by
  refine ⟨?_, ?_, ?_⟩
  · intro env githubUsername m
    cases h : findSlackUser env githubUsername m with
    | none => exact Or.inl rfl
    | some su => exact Or.inr ⟨su, rfl⟩
  · intro env githubUsername m hui hgh _hle _hul
    unfold findSlackUser findSlackUserBody
    simp [tier1_none_of_usersInfo_fail env githubUsername m hui, hgh githubUsername]
  · intro env githubUsername m githubUser h1 h2 h3 h4
    unfold findSlackUser findSlackUserBody
    simp [h1, h2, h3, h4]

/-- C3 witness: the all-throwing environment yields `none`. -/
theorem C3_no_raised_fault_witness :
    envAllFail.usersList = Except.error () ∧
    findSlackUser envAllFail "octocat" none = none :=
  ⟨rfl, C3_no_raised_fault.2.1 envAllFail "octocat" none
    (fun _ => rfl) (fun _ => rfl) (fun _ => rfl) rfl⟩

/-! ## Spec-side characterizations -/

/-- The first element of a priority list of optional strings that is
present and non-empty, or `""` when there is none (the spec's "chosen by
priority" reading). -/
def firstNonEmptyStr (l : List (Option String)) : String :=
  ((l.filterMap id).find? (fun s => s ≠ "")).getD ""

theorem firstNonEmptyStr_cons (a : Option String) (l : List (Option String)) :
    firstNonEmptyStr (a :: l) =
      if jsTruthyS a = true then strOfOpt a else firstNonEmptyStr l := by
  rcases a with _ | s
  · simp [firstNonEmptyStr, jsTruthyS]
  · by_cases h : s = "" <;> simp [firstNonEmptyStr, jsTruthyS, strOfOpt, h]

theorem strOfOpt_jsOrS (a b : Option String) :
    strOfOpt (jsOrS a b) = if jsTruthyS a = true then strOfOpt a else strOfOpt b := by
  unfold jsOrS
  split <;> simp_all

theorem jsTruthyS_jsOrS (a b : Option String) :
    jsTruthyS (jsOrS a b) = (jsTruthyS a || jsTruthyS b) := by
  unfold jsOrS
  split <;> simp_all

theorem strOfOpt_of_not_truthy (a : Option String) (h : jsTruthyS a = false) :
    strOfOpt a = "" := by
  rcases a with _ | s
  · rfl
  · simpa [jsTruthyS] using h

theorem strOfOpt_ne_of_truthy (a : Option String) (h : jsTruthyS a = true) :
    strOfOpt a ≠ "" := by
  rcases a with _ | s
  · simp [jsTruthyS] at h
  · simpa [jsTruthyS, strOfOpt] using h

theorem firstNonEmptyStr_nil : firstNonEmptyStr [] = "" := rfl

/-- A left-nested two-step `||` chain is the three-way priority choice. -/
theorem chain3_eq_firstNonEmptyStr (a b c : Option String) :
    strOfOpt (jsOrS (jsOrS a b) c) = firstNonEmptyStr [a, b, c] := by
  cases ha : jsTruthyS a <;> cases hb : jsTruthyS b <;> cases hc : jsTruthyS c <;>
    simp [strOfOpt_jsOrS, jsTruthyS_jsOrS, firstNonEmptyStr_cons, firstNonEmptyStr_nil,
      ha, hb, hc, strOfOpt_of_not_truthy]

/-- A left-nested three-step `||` chain is the four-way priority choice. -/
theorem chain4_eq_firstNonEmptyStr (a b c d : Option String) :
    strOfOpt (jsOrS (jsOrS (jsOrS a b) c) d) = firstNonEmptyStr [a, b, c, d] := by
  cases ha : jsTruthyS a <;> cases hb : jsTruthyS b <;> cases hc : jsTruthyS c <;>
    cases hd : jsTruthyS d <;>
    simp [strOfOpt_jsOrS, jsTruthyS_jsOrS, firstNonEmptyStr_cons, firstNonEmptyStr_nil,
      ha, hb, hc, hd, strOfOpt_of_not_truthy]

/-- C7: `getSlackUserProfile` returns the empty unmatched profile on
`null`, and on a user returns `matched` with the display name chosen by
priority display name → real name → handle and the avatar chosen by
priority original → 512px → 192px → 72px. -/
theorem C7_profile_selection :
    getSlackUserProfile none = { username := "", icon_url := "", matched := false } ∧
    ∀ u : SlackUser, getSlackUserProfile (some u) =
      { username := firstNonEmptyStr
          [u.profile.bind (·.display_name), u.real_name, u.name]
        icon_url := firstNonEmptyStr
          [u.profile.bind (·.image_original), u.profile.bind (·.image_512),
           u.profile.bind (·.image_192), u.profile.bind (·.image_72)]
        matched := true } := by
  refine ⟨rfl, fun u => ?_⟩
  simp only [getSlackUserProfile]
  rw [chain3_eq_firstNonEmptyStr, chain4_eq_firstNonEmptyStr]

/-- GitHub user fixture with a display name and no public email. -/
def ghOcto : GHUser := { login := "octocat", email := none, name := some "Octo Cat" }

/-- Environment reaching the name-search tier for `octocat`. -/
def envNameSearch : Env :=
  { usersInfo := fun _ => Except.error ()
    getByUsername := fun s => if s = "octocat" then Except.ok ghOcto else Except.error ()
    lookupByEmail := fun _ => Except.error ()
    usersList := Except.ok { ok := true, members := some [uOcto] } }

/-- C8: whenever the first two tiers yield nothing and `findSlackUser`
returns a user, that user is not deleted, not a bot, and its real name
or profile display name contains the GitHub display name (name falling
back to login) case-insensitively, or its handle equals the GitHub
username case-insensitively. -/
theorem C8_name_search_predicate (env : Env) (githubUsername : String) (m : Mapping)
    (githubUser : GHUser) (su : SlackUser)
    (h1 : tier1 env githubUsername m = none)
    (h2 : env.getByUsername githubUsername = Except.ok githubUser)
    (h3 : emailTier env githubUser = none)
    (h4 : findSlackUser env githubUsername m = some su) :
    su.deleted = false ∧ su.is_bot = false ∧
      (optIncludesCI su.real_name (githubNameOf githubUser) = true ∨
       optIncludesCI (su.profile.bind (·.display_name)) (githubNameOf githubUser) = true ∨
       optEqCI su.name githubUsername = true) := by
  unfold findSlackUser findSlackUserBody at h4
  simp only [h1, h2, h3] at h4
  unfold nameTier at h4
  cases hl : env.usersList with
  | error e => rw [hl] at h4; simp at h4
  | ok listData =>
    rw [hl] at h4
    by_cases hok : (listData.ok && listData.members.isSome) = true
    · simp only [hok, if_true] at h4
      have hp := List.find?_some h4
      simp only [tier3Pred, Bool.and_eq_true, Bool.or_eq_true, Bool.not_eq_true'] at hp
      exact ⟨hp.1.1, hp.1.2, by tauto⟩
    · simp only [hok, if_false] at h4
      simp at h4

/-- C8 witness: in `envNameSearch` the resolver reaches the name tier
and the returned member `uOcto` satisfies the predicate. -/
theorem C8_name_search_predicate_witness :
    findSlackUser envNameSearch "octocat" none = some uOcto ∧
    (uOcto.deleted = false ∧ uOcto.is_bot = false ∧
      (optIncludesCI uOcto.real_name (githubNameOf ghOcto) = true ∨
       optIncludesCI (uOcto.profile.bind (·.display_name)) (githubNameOf ghOcto) = true ∨
       optEqCI uOcto.name "octocat" = true)) :=
  ⟨by decide,
    C8_name_search_predicate envNameSearch "octocat" none ghOcto uOcto
      rfl (by rfl) rfl (by decide)⟩

/-- A Slack user record whose name fields are all empty or absent. -/
def uEmptyNames : SlackUser :=
  { id := "U0", name := some "", real_name := none, deleted := false, is_bot := false
    profile := none }

/-- C9 counterexample: a resolved identity (returned by `findSlackUser`
through the manual mapping) whose profile has an empty display name —
the code enforces no non-emptiness. -/
theorem C9_counterexample :
    findSlackUser
      (Env.mk (fun s => if s = "U0" then Except.ok { ok := true, user := some uEmptyNames }
            else Except.error ())
        (fun _ => Except.error ()) (fun _ => Except.error ()) (Except.error ()))
      "ghost" (some (Except.ok [("ghost", "U0")])) = some uEmptyNames ∧
    (getSlackUserProfile (some uEmptyNames)).username = "" := by
  exact ⟨by rfl, by rfl⟩

/-- C9 amended: every resolved identity's profile has `matched = true`;
its display name is non-empty whenever the user record carries a truthy
display name, real name or handle (which the code does not enforce); and
the avatar URL may be empty. -/
theorem C9_amended_nonempty_display (su : SlackUser)
    (h : (jsTruthyS (su.profile.bind (·.display_name)) || jsTruthyS su.real_name ||
      jsTruthyS su.name) = true) :
    (getSlackUserProfile (some su)).matched = true ∧
    (getSlackUserProfile (some su)).username ≠ "" := by
  refine ⟨rfl, ?_⟩
  simp only [getSlackUserProfile]
  apply strOfOpt_ne_of_truthy
  simp only [jsTruthyS_jsOrS, Bool.or_assoc] at h ⊢
  simpa using h

/-- C9 witness: a fully named user yields a non-empty display name. -/
theorem C9_amended_nonempty_display_witness :
    (jsTruthyS (uOcto.profile.bind (·.display_name)) || jsTruthyS uOcto.real_name ||
      jsTruthyS uOcto.name) = true ∧
    ((getSlackUserProfile (some uOcto)).matched = true ∧
      (getSlackUserProfile (some uOcto)).username ≠ "") :=
  ⟨by decide, C9_amended_nonempty_display uOcto (by decide)⟩

/-- Deactivated-free member the name tier would select for `alice`. -/
def uAlice : SlackUser :=
  { id := "UA", name := some "alice", real_name := some "Alice A", deleted := false
    is_bot := false, profile := none }

/-- Environment in which the GitHub user-info fetch throws but the
member directory is available and contains a match. -/
def envGhDown : Env :=
  { usersInfo := fun _ => Except.error ()
    getByUsername := fun _ => Except.error ()
    lookupByEmail := fun _ => Except.error ()
    usersList := Except.ok { ok := true, members := some [uAlice] } }

/-- C2 counterexample: the GitHub user-info fetch (the entry step of the
email tier) throws; the name-search tier would have matched `alice`
(second conjunct), yet `findSlackUser` returns `null` without attempting
it — an earlier tier's failure does prevent a later tier. -/
theorem C2_counterexample :
    envGhDown.getByUsername "alice" = Except.error () ∧
    nameTier envGhDown { login := "alice", email := none, name := none } "alice"
      = Except.ok (some uAlice) ∧
    findSlackUser envGhDown "alice" none = none := by
  refine ⟨rfl, by rfl, by rfl⟩

/-- C2 amended: malformed mapping JSON behaves as no mapping; a
tier-1 miss followed by an email-tier miss or failure falls through to
the name tier; but a thrown GitHub user-info fetch aborts resolution
with `null`, skipping the name tier. -/
theorem C2_amended_fallthrough :
    (∀ (env : Env) (githubUsername : String),
      findSlackUser env githubUsername (some (Except.error ())) =
        findSlackUser env githubUsername none) ∧
    (∀ (env : Env) (githubUsername : String) (m : Mapping) (githubUser : GHUser),
      tier1 env githubUsername m = none →
      env.getByUsername githubUsername = Except.ok githubUser →
      emailTier env githubUser = none →
      findSlackUser env githubUsername m =
        (match nameTier env githubUser githubUsername with
         | Except.ok r => r
         | Except.error _ => none)) ∧
    (∀ (env : Env) (githubUsername : String) (m : Mapping),
      tier1 env githubUsername m = none →
      env.getByUsername githubUsername = Except.error () →
      findSlackUser env githubUsername m = none) := by
  refine ⟨fun env githubUsername => rfl, ?_, ?_⟩
  · intro env githubUsername m githubUser h1 h2 h3
    unfold findSlackUser findSlackUserBody
    simp [h1, h2, h3]
  · intro env githubUsername m h1 h2
    unfold findSlackUser findSlackUserBody
    simp [h1, h2]

/-- C2 witness: with no mapping, a GitHub user without email, and a
failing email directory, resolution falls through to the name tier and
returns `uAlice`; and with a thrown user-info fetch it returns `null`. -/
theorem C2_amended_fallthrough_witness :
    envNameSearch.getByUsername "octocat" = Except.ok ghOcto ∧
    findSlackUser envNameSearch "octocat" none = some uOcto ∧
    findSlackUser envGhDown "alice" none = none :=
  ⟨by rfl,
    (C2_amended_fallthrough.2.1 envNameSearch "octocat" none ghOcto rfl (by rfl) rfl).trans
      (by decide),
    C2_amended_fallthrough.2.2 envGhDown "alice" none rfl rfl⟩

/-- Slack user the mention `@domain` resolves to. -/
def uDomain : SlackUser :=
  { id := "U7", name := some "dom", real_name := none, deleted := false, is_bot := false
    profile := none }

/-- Environment resolving `domain` through the manual mapping. -/
def envDomain : Env :=
  { usersInfo := fun s => if s = "U7" then Except.ok { ok := true, user := some uDomain }
      else Except.error ()
    getByUsername := fun _ => Except.error ()
    lookupByEmail := fun _ => Except.error ()
    usersList := Except.error () }

/-- C10: the mention pattern has no left word boundary, so in
`"user@domain"` the trailing `@domain` is detected as a mention of
`domain`, and when it resolves the occurrence inside the original token
is replaced, yielding `"user<@U7>"`. -/
theorem C10_no_left_word_boundary :
    findMentions "user@domain".toList = ["domain".toList] ∧
    findSlackUser envDomain "domain" (some (Except.ok [("domain", "U7")])) = some uDomain ∧
    processMentions envDomain (some (Except.ok [("domain", "U7")])) "user@domain"
      = "user<@U7>" := by
  refine ⟨by decide, by decide, by decide⟩

/-- Slack user the mention `@bob` resolves to. -/
def uBob : SlackUser :=
  { id := "U1", name := some "bob", real_name := none, deleted := false, is_bot := false
    profile := none }

/-- Environment resolving only the mapped id `U1`. -/
def envBob : Env :=
  { usersInfo := fun s => if s = "U1" then Except.ok { ok := true, user := some uBob }
      else Except.error ()
    getByUsername := fun _ => Except.error ()
    lookupByEmail := fun _ => Except.error ()
    usersList := Except.error () }

/-- Static mapping resolving only `bob`. -/
def mapBob : Mapping := some (Except.ok [("bob", "U1")])

/-- C4 counterexample: in `"@bob-x @bob"` the mention `bob-x` does not
resolve, yet the text is not returned unchanged for it: replacing the
resolved mention `@bob` also rewrites the `@bob` prefix inside the
unresolved token `@bob-x` (the JavaScript `\b` holds before `-`),
producing `"<@U1>-x <@U1>"` instead of `"@bob-x <@U1>"`. -/
theorem C4_counterexample :
    findSlackUser envBob "bob-x" mapBob = none ∧
    findSlackUser envBob "bob" mapBob = some uBob ∧
    processMentions envBob mapBob "@bob-x @bob" = "<@U1>-x <@U1>" ∧
    processMentions envBob mapBob "@bob-x @bob" ≠ "@bob-x <@U1>" := by
  refine ⟨by decide, by decide, by decide, by decide⟩

/-- Mentions none of which resolve leave the running text untouched. -/
theorem foldl_skip_unresolved (env : Env) (m : Mapping) (ms : List (List Char))
    (acc : List Char)
    (h : ∀ nm ∈ ms, findSlackUser env (String.mk nm) m = none) :
    ms.foldl (fun acc nm =>
      match findSlackUser env (String.mk nm) m with
      | some slackUser => replaceMention nm slackUser.id.toList acc
      | none => acc) acc = acc := by
  induction ms generalizing acc with
  | nil => rfl
  | cons nm rest ih =>
    simp only [List.foldl_cons]
    rw [h nm (List.mem_cons_self nm rest)]
    exact ih acc fun x hx => h x (List.mem_cons_of_mem _ hx)

/-- Computation of the single whole-word replacement in `"hi @bob"`,
for an arbitrary replacement id. -/
theorem replaceMention_hi_bob (id : List Char) :
    replaceMention ['b', 'o', 'b'] id ('h' :: 'i' :: ' ' :: '@' :: 'b' :: 'o' :: 'b' :: []) =
      'h' :: 'i' :: ' ' :: '<' :: '@' :: (id ++ ['>']) := rfl

/-- C4 amended: a text none of whose mentions resolve is returned
unchanged; and a resolving mention is replaced at every occurrence
followed by a JavaScript word boundary, as in the spec's example
`"hi @bob"` becoming `"hi <@id>"` — but (per the counterexample) such
an occurrence may also sit inside a longer unresolved mention token when
a non-word character such as a hyphen follows it. -/
theorem C4_amended_mention_rewrite :
    (∀ (env : Env) (m : Mapping) (text : String),
      (∀ nm ∈ findMentions text.toList, findSlackUser env (String.mk nm) m = none) →
      processMentions env m text = text) ∧
    (∀ (env : Env) (m : Mapping) (su : SlackUser),
      findSlackUser env "bob" m = some su →
      processMentions env m "hi @bob" = "hi <@" ++ su.id ++ ">") := by
  constructor
  · intro env m text h
    unfold processMentions
    rw [foldl_skip_unresolved env m _ _ h]
    rfl
  · intro env m su h
    unfold processMentions
    have h1 : findMentions "hi @bob".toList = [['b', 'o', 'b']] := rfl
    rw [h1]
    simp only [List.foldl_cons, List.foldl_nil]
    have h2 : findSlackUser env (String.mk ['b', 'o', 'b']) m = some su := h
    rw [h2]
    show String.mk (replaceMention ['b', 'o', 'b'] su.id.toList
      ('h' :: 'i' :: ' ' :: '@' :: 'b' :: 'o' :: 'b' :: [])) = "hi <@" ++ su.id ++ ">"
    rw [replaceMention_hi_bob]
    generalize su.id = s
    obtain ⟨l⟩ := s
    rfl

/-- C4 amended witness: both conjuncts at concrete inputs — an
all-failing environment leaves `"hi @zed"` unchanged, and `envBob`
rewrites `"hi @bob"`. -/
theorem C4_amended_mention_rewrite_witness :
    processMentions envAllFail none "hi @zed" = "hi @zed" ∧
    findSlackUser envBob "bob" mapBob = some uBob ∧
    processMentions envBob mapBob "hi @bob" = "hi <@" ++ uBob.id ++ ">" :=
  ⟨C4_amended_mention_rewrite.1 envAllFail none "hi @zed"
      (by intro nm hnm; fin_cases hnm <;> rfl),
    by decide,
    C4_amended_mention_rewrite.2 envBob mapBob uBob (by decide)⟩

/-! ## Spec-side characterization of image extraction -/

/-- The spec reading of one recognized tag: a block exactly when the tag
carries a src value, with alt text defaulting to `"Image"`. -/
def tagToBlock (imgTag : List Char) : Option ImageBlock :=
  (findAttrVal "src".toList imgTag).map fun src =>
    { image_url := String.mk src
      alt_text :=
        match findAttrVal "alt".toList imgTag with
        | some alt => String.mk alt
        | none => "Image" }

/-- Does the text contain three consecutive newlines anywhere? -/
def hasTriple (l : List Char) : Bool :=
  match l with
  | [] => false
  | c :: rest => (c = '\n' && startsWithL ['\n', '\n'] rest) || hasTriple rest

theorem startsWithL_append_mono (p X Z : List Char) (h : startsWithL p X = true) :
    startsWithL p (X ++ Z) = true := by
  induction p generalizing X with
  | nil => rfl
  | cons a ps ih =>
    cases X with
    | nil => simp [startsWithL] at h
    | cons x xs =>
      simp only [startsWithL, Bool.and_eq_true] at h ⊢
      exact ⟨h.1, ih xs h.2⟩

theorem hasTriple_of_append (X Z : List Char) (h : hasTriple (X ++ Z) = false) :
    hasTriple X = false := by
  induction X with
  | nil => rfl
  | cons c xs ih =>
    simp only [List.cons_append, hasTriple, Bool.or_eq_false_iff,
      Bool.and_eq_false_iff] at h ⊢
    refine ⟨?_, ih h.2⟩
    rcases h.1 with h1 | h1
    · exact Or.inl h1
    · refine Or.inr ?_
      cases hs : startsWithL ['\n', '\n'] xs
      · rfl
      · have h2 := startsWithL_append_mono ['\n', '\n'] xs Z hs
        simp_all

theorem hasTriple_dropWhile (p : Char → Bool) (l : List Char)
    (h : hasTriple l = false) : hasTriple (l.dropWhile p) = false := by
  induction l with
  | nil => exact h
  | cons c rest ih =>
    simp only [hasTriple, Bool.or_eq_false_iff] at h
    rw [List.dropWhile_cons]
    split
    · exact ih h.2
    · simpa [hasTriple] using h

theorem dropTrailingWs_append (l : List Char) : ∃ z, l = dropTrailingWs l ++ z := by
  induction l with
  | nil => exact ⟨[], rfl⟩
  | cons c rest ih =>
    obtain ⟨z, hz⟩ := ih
    cases hrec : dropTrailingWs rest with
    | nil =>
      by_cases hc : isJsWs c = true
      · exact ⟨c :: rest, by simp [dropTrailingWs, hrec, hc]⟩
      · refine ⟨z, ?_⟩
        simp only [dropTrailingWs, hrec, hc, if_false]
        rw [hrec] at hz
        simpa using congrArg (c :: ·) hz
    | cons d ds =>
      refine ⟨z, ?_⟩
      simp only [dropTrailingWs, hrec]
      rw [hrec] at hz
      simpa using congrArg (c :: ·) hz

theorem hasTriple_dropTrailingWs (l : List Char) (h : hasTriple l = false) :
    hasTriple (dropTrailingWs l) = false := by
  obtain ⟨z, hz⟩ := dropTrailingWs_append l
  exact hasTriple_of_append _ z (hz ▸ h)

theorem head?_dropWhile_not (p : Char → Bool) (l : List Char) (c : Char)
    (h : (l.dropWhile p).head? = some c) : p c = false := by
  induction l with
  | nil => simp [List.dropWhile] at h
  | cons a rest ih =>
    rw [List.dropWhile_cons] at h
    split at h
    · exact ih h
    · rename_i hpa
      simp only [List.head?_cons, Option.some.injEq] at h
      subst h
      simpa using hpa

theorem dropTrailingWs_head? (l : List Char) (c : Char)
    (h : (dropTrailingWs l).head? = some c) : l.head? = some c := by
  cases l with
  | nil => simp [dropTrailingWs] at h
  | cons a rest =>
    simp only [dropTrailingWs] at h
    split at h
    · split at h
      · simp at h
      · simp only [List.head?_cons, Option.some.injEq] at h
        simp [h]
    · simp only [List.head?_cons, Option.some.injEq] at h
      simp [h]

theorem dropTrailingWs_getLast? (l : List Char) (c : Char)
    (h : (dropTrailingWs l).getLast? = some c) : isJsWs c = false := by
  induction l with
  | nil => simp [dropTrailingWs] at h
  | cons a rest ih =>
    simp only [dropTrailingWs] at h
    split at h
    · split at h
      · simp at h
      · simp only [List.getLast?_singleton, Option.some.injEq] at h
        subst h
        simpa using ‹¬isJsWs a = true›
    · rename_i d ds hrec
      rw [List.getLast?_cons_cons] at h
      rw [← hrec] at h
      exact ih h

theorem drop_takeWhile_len (p : Char → Bool) (l : List Char) :
    l.drop (l.takeWhile p).length = l.dropWhile p := by
  induction l with
  | nil => rfl
  | cons a rest ih =>
    by_cases hp : p a = true
    · simp [List.takeWhile_cons, List.dropWhile_cons, hp, ih]
    · simp [List.takeWhile_cons, List.dropWhile_cons, hp]

theorem collapseNlGo_head? (fuel : Nat) (l : List Char) :
    (collapseNlGo fuel l).head? = l.head? := by
  match fuel, l with
  | 0, l => rfl
  | fuel + 1, [] => rfl
  | fuel + 1, c :: rest =>
    by_cases hc : c = '\n'
    · subst hc
      by_cases hk : (rest.takeWhile (fun d => d = '\n')).length + 1 ≥ 3 <;>
        simp [collapseNlGo, hk]
    · simp [collapseNlGo, hc]

/-- After a newline-run collapse the text has no three consecutive
newlines left. -/
theorem collapseNlGo_no_triple (fuel : Nat) :
    ∀ l : List Char, l.length ≤ fuel → hasTriple (collapseNlGo fuel l) = false := by
  induction fuel with
  | zero =>
    intro l hl
    have : l = [] := List.eq_nil_of_length_eq_zero (Nat.le_zero.mp hl)
    subst this
    rfl
  | succ fuel ih =>
    intro l hl
    cases l with
    | nil => rfl
    | cons c rest =>
      have hrest : rest.length ≤ fuel := by
        simp only [List.length_cons] at hl
        omega
      by_cases hc : c = '\n'
      · subst hc
        have hgo : collapseNlGo (fuel + 1) ('\n' :: rest) =
            if (rest.takeWhile (fun d => d = '\n')).length + 1 ≥ 3 then
              '\n' :: '\n' :: collapseNlGo fuel
                (rest.drop (rest.takeWhile (fun d => d = '\n')).length)
            else
              '\n' :: rest.takeWhile (fun d => d = '\n')
                ++ collapseNlGo fuel
                  (rest.drop (rest.takeWhile (fun d => d = '\n')).length) := rfl
        have hdl : rest.drop (rest.takeWhile (fun d => d = '\n')).length
            = rest.dropWhile (fun d => d = '\n') := drop_takeWhile_len _ rest
        have hlen : (rest.dropWhile (fun d => d = '\n')).length ≤ fuel := by
          rw [← hdl]
          simp only [List.length_drop]
          omega
        have hZ : hasTriple (collapseNlGo fuel (rest.dropWhile (fun d => d = '\n'))) = false :=
          ih _ hlen
        have hsw1 : ∀ w, startsWithL ('\n' :: w)
            (collapseNlGo fuel (rest.dropWhile (fun d => d = '\n'))) = false := by
          intro w
          cases hzz : collapseNlGo fuel (rest.dropWhile (fun d => d = '\n')) with
          | nil => rfl
          | cons z zs =>
            have hz : (rest.dropWhile (fun d => d = '\n')).head? = some z := by
              rw [← collapseNlGo_head? fuel, hzz]
              rfl
            have hzn : z ≠ '\n' := by simpa using head?_dropWhile_not _ _ _ hz
            simp [startsWithL, Ne.symm hzn]
        rw [hgo, hdl]
        by_cases hcase : (rest.takeWhile (fun d => d = '\n')).length + 1 ≥ 3
        · rw [if_pos hcase]
          simp only [hasTriple, startsWithL]
          simp [hZ, hsw1]
        · rw [if_neg hcase]
          cases hrun : rest.takeWhile (fun d => d = '\n') with
          | nil =>
            simp only [List.nil_append, hasTriple]
            simp [hZ, hsw1]
          | cons d ds =>
            have hd : d = '\n' := by
              have hmem : d ∈ rest.takeWhile (fun d => d = '\n') := by
                rw [hrun]
                exact List.mem_cons_self d ds
              simpa using List.mem_takeWhile_imp hmem
            have hds : ds = [] := by
              rw [hrun] at hcase
              simp only [List.length_cons, ge_iff_le, not_le] at hcase
              exact List.eq_nil_of_length_eq_zero (by omega)
            subst hd
            subst hds
            simp only [List.cons_append, List.nil_append, hasTriple, startsWithL]
            simp [hZ, hsw1]
      · have hgo : collapseNlGo (fuel + 1) (c :: rest) =
            c :: collapseNlGo fuel rest := by
          simp [collapseNlGo, hc]
        rw [hgo]
        simp [hasTriple, hc, ih rest hrest]

/-- Push the value of `f` on the accumulator when present. -/
def pushIfSome {α β : Type} (f : α → Option β) (acc : List β) (a : α) : List β :=
  match f a with
  | some b => acc ++ [b]
  | none => acc

/-- A push-if-some loop is the filterMap of its body. -/
theorem foldl_push_filterMap {α β : Type} (f : α → Option β) (l : List α) (acc : List β) :
    l.foldl (pushIfSome f) acc = acc ++ l.filterMap f := by
  induction l generalizing acc with
  | nil => simp
  | cons a rest ih =>
    simp only [List.foldl_cons, List.filterMap_cons]
    cases hfa : f a with
    | none => simp only [pushIfSome, hfa, ih]
    | some b => simp only [pushIfSome, hfa, ih, List.append_assoc, List.singleton_append]

/-- The per-tag body of the extraction loop is the push-if-some body of
`tagToBlock`. -/
theorem extractBody_eq_tagToBlock :
    (fun (acc : List ImageBlock) (imgTag : List Char) =>
      match findAttrVal "src".toList imgTag with
      | some src =>
        acc ++ [{ image_url := String.mk src
                  alt_text :=
                    match findAttrVal "alt".toList imgTag with
                    | some alt => String.mk alt
                    | none => "Image" }]
      | none => acc) =
    pushIfSome tagToBlock := by
  funext acc imgTag
  rw [pushIfSome, tagToBlock]
  cases findAttrVal "src".toList imgTag
  · rfl
  · rfl

/-- C5: `extractAndConvertImages` produces one image block per
recognized img tag carrying a src, in order of appearance, with alt text
defaulting to `"Image"` (first conjunct, via `tagToBlock`); the stripped
text never contains three consecutive newlines and never starts or ends
with whitespace (conjuncts 2–4); and the spec's two concrete examples
evaluate as stated (conjuncts 5–6). -/
theorem C5_image_extraction :
    (∀ text : String, (extractAndConvertImages text).imageBlocks
        = (findImgTags text.toList).filterMap tagToBlock) ∧
    (∀ text : String,
      hasTriple (extractAndConvertImages text).textWithoutImages.toList = false) ∧
    (∀ (text : String) (c : Char),
      (extractAndConvertImages text).textWithoutImages.toList.head? = some c →
      isJsWs c = false) ∧
    (∀ (text : String) (c : Char),
      (extractAndConvertImages text).textWithoutImages.toList.getLast? = some c →
      isJsWs c = false) ∧
    extractAndConvertImages "text <img src=\"http://x/y.png\" alt=\"Z\" />"
      = { textWithoutImages := "text"
          imageBlocks := [{ image_url := "http://x/y.png", alt_text := "Z" }] } ∧
    extractAndConvertImages "<img src=\"a.png\"/>"
      = { textWithoutImages := ""
          imageBlocks := [{ image_url := "a.png", alt_text := "Image" }] } := by
  refine ⟨?_, ?_, ?_, ?_, by decide, by decide⟩
  · intro text
    rw [extractAndConvertImages]
    rw [extractBody_eq_tagToBlock]
    rw [foldl_push_filterMap tagToBlock (findImgTags text.toList) []]
    simp
  · intro text
    show hasTriple (jsTrimL (collapseNl (removeImgTags text.toList))) = false
    unfold jsTrimL
    apply hasTriple_dropTrailingWs
    apply hasTriple_dropWhile
    exact collapseNlGo_no_triple _ _ le_rfl
  · intro text c h
    have h1 : (jsTrimL (collapseNl (removeImgTags text.toList))).head? = some c := h
    unfold jsTrimL at h1
    exact head?_dropWhile_not _ _ _ (dropTrailingWs_head? _ _ h1)
  · intro text c h
    have h1 : (jsTrimL (collapseNl (removeImgTags text.toList))).getLast? = some c := h
    unfold jsTrimL at h1
    exact dropTrailingWs_getLast? _ _ h1

/-- C5 witness: the stripped text of `"  hi  "` starts with `h` and ends
with `i`, neither of which is whitespace. -/
theorem C5_image_extraction_witness :
    (extractAndConvertImages "  hi  ").textWithoutImages.toList.head? = some 'h' ∧
    isJsWs 'h' = false ∧
    (extractAndConvertImages "  hi  ").textWithoutImages.toList.getLast? = some 'i' ∧
    isJsWs 'i' = false :=
  ⟨by decide, C5_image_extraction.2.2.1 "  hi  " 'h' (by decide),
   by decide, C5_image_extraction.2.2.2.1 "  hi  " 'i' (by decide)⟩

/-- A lifted image block is never a text section. -/
theorem isSec_imgToBlock (b : ImageBlock) : isSec (imgToBlock b) = false := rfl

/-- A lifted image block is never a context block. -/
theorem isCtx_imgToBlock (b : ImageBlock) : isCtx (imgToBlock b) = false := rfl

/-- The context block appended last is the last block. -/
theorem getLast?_cons_append_ctx (x : SBlock) (l : List SBlock) (t : String) :
    (x :: (l ++ [SBlock.ctx t])).getLast? = some (SBlock.ctx t) := by
  rw [← List.cons_append, List.getLast?_concat]

/-- C6 counterexample: `buildReviewBlocks` on an empty review body — the
stripped text is empty, yet the builder still emits a text-section block
(with just the emoji and action), so the review builder does not emit a
section only when the remaining text is non-empty. -/
theorem C6_counterexample :
    (extractAndConvertImages "").textWithoutImages = "" ∧
    buildReviewBlocks "E" "Approved" "" "u" "t" "r" "rev"
      = [SBlock.sec "E *Approved*", SBlock.ctx "<u|t> • <r|View review> • rev"] ∧
    (buildReviewBlocks "E" "Approved" "" "u" "t" "r" "rev").countP isSec = 1 := by
  refine ⟨by decide, by decide, by decide⟩

/-- C6 amended: every builder returns blocks of the shape
optional-sections ++ images (in order of appearance) ++ exactly one
trailing context block, with at most one text section; the
review-request builder and the review builder always emit exactly one
text section, while the comment builder emits one exactly when the
stripped text is non-empty. -/
theorem C6_amended_block_shape :
    (∀ commentBody issueUrl issueTitle commentUrl commentAuthor : String,
      (buildCommentBlocks commentBody issueUrl issueTitle commentUrl
        commentAuthor).countP isCtx = 1 ∧
      ((buildCommentBlocks commentBody issueUrl issueTitle commentUrl
        commentAuthor).getLast?).map isCtx = some true ∧
      buildCommentBlocks commentBody issueUrl issueTitle commentUrl commentAuthor =
        (buildCommentBlocks commentBody issueUrl issueTitle commentUrl
          commentAuthor).filter isSec
        ++ (extractAndConvertImages commentBody).imageBlocks.map imgToBlock
        ++ [SBlock.ctx ("<" ++ issueUrl ++ "|" ++ issueTitle ++ "> • <" ++ commentUrl
            ++ "|View comment> • " ++ commentAuthor)] ∧
      (buildCommentBlocks commentBody issueUrl issueTitle commentUrl
        commentAuthor).countP isSec =
        (if (extractAndConvertImages commentBody).textWithoutImages ≠ "" then 1 else 0)) ∧
    (∀ reviewerTag prUrl prTitle prBody prNumber requestSender requestedReviewer : String,
      (buildReviewRequestBlocks reviewerTag prUrl prTitle prBody prNumber requestSender
        requestedReviewer).countP isCtx = 1 ∧
      ((buildReviewRequestBlocks reviewerTag prUrl prTitle prBody prNumber requestSender
        requestedReviewer).getLast?).map isCtx = some true ∧
      (buildReviewRequestBlocks reviewerTag prUrl prTitle prBody prNumber requestSender
        requestedReviewer).countP isSec = 1) ∧
    (∀ reviewEmoji reviewAction reviewBody prUrl prTitle reviewUrl reviewer : String,
      (buildReviewBlocks reviewEmoji reviewAction reviewBody prUrl prTitle reviewUrl
        reviewer).countP isCtx = 1 ∧
      ((buildReviewBlocks reviewEmoji reviewAction reviewBody prUrl prTitle reviewUrl
        reviewer).getLast?).map isCtx = some true ∧
      (buildReviewBlocks reviewEmoji reviewAction reviewBody prUrl prTitle reviewUrl
        reviewer).countP isSec = 1 ∧
      buildReviewBlocks reviewEmoji reviewAction reviewBody prUrl prTitle reviewUrl
        reviewer =
        (buildReviewBlocks reviewEmoji reviewAction reviewBody prUrl prTitle reviewUrl
          reviewer).filter isSec
        ++ (extractAndConvertImages reviewBody).imageBlocks.map imgToBlock
        ++ [SBlock.ctx ("<" ++ prUrl ++ "|" ++ prTitle ++ "> • <" ++ reviewUrl
            ++ "|View review> • " ++ reviewer)]) := by
  refine ⟨?_, ?_, ?_⟩
  · intro a b c d e
    by_cases hne : (extractAndConvertImages a).textWithoutImages = "" <;>
      simp [buildCommentBlocks, hne, List.countP_append, List.countP_map,
        List.filter_append, List.filter_map, List.countP_cons, List.filter_cons,
        Function.comp, isSec, isCtx, imgToBlock, List.getLast?_append,
        getLast?_cons_append_ctx, List.countP_eq_zero, List.filter_eq_nil_iff]
  · intro a b c d e f g
    simp [buildReviewRequestBlocks, List.countP_append, List.countP_map,
      List.countP_cons, Function.comp, isSec, isCtx, imgToBlock,
      List.getLast?_append, getLast?_cons_append_ctx, List.countP_eq_zero]
  · intro a b c d e f g
    simp [buildReviewBlocks, List.countP_append, List.countP_map,
      List.filter_append, List.filter_map, List.countP_cons, List.filter_cons,
      Function.comp, isSec, isCtx, imgToBlock, List.getLast?_append,
      getLast?_cons_append_ctx, List.countP_eq_zero, List.filter_eq_nil_iff]

end SlackLookup
